import Mathlib

/-!
Verification development for the asyncnsq NSQ client library.

The definitions below are a shallow embedding of the Python sources:
  * `src/asyncnsq/tcp/protocol.py` — the framed codec (`Reader`),
  * `src/asyncnsq/tcp/consts.py` — constants and the `ConnectionStatus` enum,
  * `src/asyncnsq/tcp/reader.py` — the consumer (`Reader.connect`,
    `Reader.messages`, `Reader.wait_messages`),
  * `src/asyncnsq/http/base.py` — the lookupd HTTP client
    (`NsqHTTPConnection.perform_request`).

Bytes are modelled as `Nat` (values below 256 in every reachable state);
Python's signed `struct` integers are modelled as `Int` via two's complement;
Python exceptions are modelled by explicit error values.
-/

/-! ### Python slicing and struct primitives -/

/-- Normalisation of a Python slice index against a sequence of length `n`:
negative indices count from the end, and both ends are clamped into `[0, n]`. -/
def pyIndex (n : Nat) (i : Int) : Nat :=
  if i < 0 then ((n : Int) + i).toNat else min i.toNat n

/-- Python slice `b[i:j]` (used by `Reader` on its `bytearray` buffer). -/
def pySlice (b : List Nat) (i j : Int) : List Nat :=
  let i' := pyIndex b.length i
  let j' := pyIndex b.length j
  (b.drop i').take (j' - i')

/-- Python slice `b[i:]`. -/
def pySliceFrom (b : List Nat) (i : Int) : List Nat :=
  b.drop (pyIndex b.length i)

/-- Big-endian value of a byte string. -/
def beValue (s : List Nat) : Nat :=
  s.foldl (fun acc b => acc * 256 + b) 0

/-- Two's-complement reinterpretation at width `w`, as done by the signed
`struct` format characters. -/
def toSigned (w : Nat) (n : Nat) : Int :=
  let m := n % 2 ^ w
  if m < 2 ^ (w - 1) then (m : Int) else (m : Int) - (2 ^ w : Int)

/-- Value of `struct.unpack('>l', s)[0]` ignoring the length check
(the callers below enforce it). -/
def int32BEv (s : List Nat) : Int := toSigned 32 (beValue s)

/-- `struct.unpack('>l', s)[0]`: 4-byte big-endian signed; `struct.error`
(`none`) when `s` is not exactly 4 bytes. -/
def unpackInt32BE (s : List Nat) : Option Int :=
  if s.length = 4 then some (int32BEv s) else none

/-- `struct.pack('>l', n)` for the in-range values used by the encoder. -/
def packInt32BE (n : Int) : List Nat :=
  let m := (n % (2 ^ 32 : Int)).toNat
  [m / 2 ^ 24 % 256, m / 2 ^ 16 % 256, m / 2 ^ 8 % 256, m % 256]

/-- ASCII whitespace, as used by `bytes.split` with no separator. -/
def pyIsSpace (c : Nat) : Bool :=
  c = 32 || c = 9 || c = 10 || c = 11 || c = 12 || c = 13

/-- Python `bytes.split(maxsplit=1)` with the default (whitespace) separator:
leading whitespace is skipped, the first token is cut at the next whitespace
run, and the remainder (with that run removed) is the second element; a
remainder that is empty after removing the run is dropped. -/
def pySplitWs1 (b : List Nat) : List (List Nat) :=
  let b1 := b.dropWhile (fun c => pyIsSpace c)
  if b1 = [] then []
  else
    let tok := b1.takeWhile (fun c => !pyIsSpace c)
    let rest := (b1.dropWhile (fun c => !pyIsSpace c)).dropWhile (fun c => pyIsSpace c)
    if rest = [] then [tok] else [tok, rest]

/-! In `tcp/consts.py`: `DATA_SIZE = 4`, `FRAME_SIZE = 4`,
`HEADER_SIZE = DATA_SIZE + FRAME_SIZE = 8`,
`MSG_HEADER = TIMESTAMP_SIZE + ATTEMPTS_SIZE + MSG_ID_SIZE = 26`.
These appear below as the literals 4, 8 and 26. -/

/-! ### Frames, parse outcomes and the `Reader` state (`tcp/protocol.py`) -/

/-- Python exceptions that `Reader.get` can raise. -/
inductive PyError
  /-- `struct.error` from `struct.unpack` on a wrongly sized buffer or a
  malformed format string. -/
  | structError
  /-- `ValueError` raised by the `FrameType(...)` enum conversion in
  `Reader.get` when the frame type is not 0, 1 or 2. -/
  | frameTypeValueError
  /-- `ValueError` raised by `code, msg = error.split(maxsplit=1)` in
  `Reader._unpack_error` when the split does not give two parts. -/
  | splitValueError
  /-- `ProtocolError` raised by the fall-through branch of
  `Reader._parse_payload`. -/
  | protocolError (ft : Int)
deriving DecidableEq, Repr

/-- The typed frames `NSQResponseSchema` / `NSQErrorSchema` /
`NSQMessageSchema` produced by `Reader._parse_payload`. -/
inductive NSQFrame
  | response (body : List Nat)
  | errorFrame (code msg : List Nat)
  | message (timestamp attempts : Int) (id body : List Nat)
deriving DecidableEq, Repr

/-- Outcome of one `Reader.get()` call. -/
inductive GetOut
  | pending
  | frame (f : NSQFrame)
  | exc (e : PyError)
deriving DecidableEq, Repr

/-- How a run of repeated `get()` calls stopped. -/
inductive GetStop
  | pending
  | exc (e : PyError)
  | fuelOut
deriving DecidableEq, Repr

/-- The mutable state of `Reader.__init__`: `_buffer`, `_is_header`,
`_payload_size`. -/
structure ReaderState where
  buffer : List Nat
  isHeader : Bool
  payloadSize : Int
deriving DecidableEq, Repr

/-- `Reader()` with no initial buffer. -/
def initialReader : ReaderState := ⟨[], false, 0⟩

namespace Reader

/-- `Reader.feed`: `chunk and self._buffer.extend(chunk)`. -/
def feed (s : ReaderState) (chunk : List Nat) : ReaderState :=
  if chunk = [] then s else { s with buffer := s.buffer ++ chunk }

/-- `Reader._unpack_response`: `bytes(self._buffer[HEADER_SIZE : DATA_SIZE + payload_size])`. -/
def unpackResponse (buf : List Nat) (payloadSize : Int) : List Nat :=
  pySlice buf 8 (4 + payloadSize)

/-- `Reader._unpack_error`: split the response body on the first whitespace
run; `ValueError` unless the split yields exactly a code and a message. -/
def unpackError (buf : List Nat) (payloadSize : Int) :
    Except PyError (List Nat × List Nat) :=
  match pySplitWs1 (unpackResponse buf payloadSize) with
  | [code, msg] => .ok (code, msg)
  | _ => .error .splitValueError

/-- `Reader._unpack_message`: `struct.unpack('>qh16s{msg_len}s', buffer[8 : 4+size])`.
`msg_len = (4 + size) - 8 - MSG_HEADER`; a negative `msg_len` makes the format
string malformed and a length mismatch makes `unpack` fail, both `struct.error`. -/
def unpackMessage (buf : List Nat) (payloadSize : Int) :
    Except PyError (Int × Int × List Nat × List Nat) :=
  let s := unpackResponse buf payloadSize
  let msgLen : Int := (4 + payloadSize) - 8 - 26
  if msgLen < 0 then .error .structError
  else if (s.length : Int) = 8 + 2 + 16 + msgLen then
    .ok (toSigned 64 (beValue (s.take 8)),
         toSigned 16 (beValue ((s.drop 8).take 2)),
         (s.drop 10).take 16,
         s.drop 26)
  else .error .structError

/-- `Reader._parse_payload`: dispatch on the frame type; the final branch
raises `ProtocolError` (it is unreachable from `get`, which has already
converted the value through the `FrameType` enum). -/
def parsePayload (buf : List Nat) (ft : Int) (payloadSize : Int) :
    Except PyError NSQFrame :=
  if ft = 0 then .ok (.response (unpackResponse buf payloadSize))
  else if ft = 1 then
    match unpackError buf payloadSize with
    | .ok (code, msg) => .ok (.errorFrame code msg)
    | .error e => .error e
  else if ft = 2 then
    match unpackMessage buf payloadSize with
    | .ok (ts, att, id, body) => .ok (.message ts att id body)
    | .error e => .error e
  else .error (.protocolError ft)

/-- Body of the second `if` of `Reader.get` (lines 214–227 of `protocol.py`),
for a known payload size: check that the full frame is buffered, read the
frame type from `buffer[4:8]`, convert it through the `FrameType` enum
(`ValueError` when not 0/1/2), parse the payload, and on success drop
`DATA_SIZE + payload_size` bytes from the buffer. -/
def parseAttempt (b : List Nat) (size : Int) : GetOut × List Nat :=
  if (b.length : Int) ≥ 4 + size then
    match unpackInt32BE (pySlice b 4 8) with
    | none => (.exc .structError, b)
    | some ftv =>
      if ftv = 0 ∨ ftv = 1 ∨ ftv = 2 then
        match parsePayload b ftv size with
        | .error e => (.exc e, b)
        | .ok f => (.frame f, pySliceFrom b (4 + size))
      else (.exc .frameTypeValueError, b)
  else (.pending, b)

/-- `Reader.get`: if a size header has not yet been read and at least
`DATA_SIZE` bytes are buffered, read the big-endian signed size and record it
(`struct.unpack` cannot fail here: the guard ensures the slice has 4 bytes);
then attempt to parse one complete frame.  On success the frame is returned
and exactly `DATA_SIZE + payload_size` bytes are dropped; exceptions leave the
buffer and header state untouched. -/
def get (s : ReaderState) : GetOut × ReaderState :=
  let s1 :=
    if ¬ s.isHeader ∧ (s.buffer.length : Int) ≥ 4 then
      { s with payloadSize := int32BEv (pySlice s.buffer 0 4),
               isHeader := true }
    else s
  if s1.isHeader then
    match parseAttempt s.buffer s1.payloadSize with
    | (.frame f, b') => (.frame f, ⟨b', false, 0⟩)
    | (.pending, _) => (.pending, s1)
    | (.exc e, _) => (.exc e, s1)
  else (.pending, s1)

end Reader

/-! ### Pure (stateless) view of the parser, and repeated `get` runs -/

/-- The parse step as a pure function of the buffer: this is what `Reader.get`
computes on any state whose cached header agrees with the buffer. -/
def pureGet (b : List Nat) : GetOut × List Nat :=
  if (b.length : Int) ≥ 4 then
    Reader.parseAttempt b (int32BEv (pySlice b 0 4))
  else (.pending, b)

/-- Repeatedly call `get` (stateful), collecting frames, until it returns
`None` or raises; `fuel` bounds the number of calls. -/
def drainR : Nat → ReaderState → List NSQFrame × GetStop × ReaderState
  | 0, s => ([], .fuelOut, s)
  | fuel + 1, s =>
    match Reader.get s with
    | (.pending, s') => ([], .pending, s')
    | (.exc e, s') => ([], .exc e, s')
    | (.frame f, s') =>
      let r := drainR fuel s'
      (f :: r.1, r.2.1, r.2.2)

/-- Pure counterpart of `drainR`. -/
def pureDrain : Nat → List Nat → List NSQFrame × GetStop × List Nat
  | 0, b => ([], .fuelOut, b)
  | fuel + 1, b =>
    match pureGet b with
    | (.pending, b') => ([], .pending, b')
    | (.exc e, b') => ([], .exc e, b')
    | (.frame f, b') =>
      let r := pureDrain fuel b'
      (f :: r.1, r.2.1, r.2.2)

/-- Drain a buffer with ample fuel. -/
def drainFull (b : List Nat) : List NSQFrame × GetStop × List Nat :=
  pureDrain (b.length + 1) b

/-- Feed the chunks one by one, draining the codec after every feed; the
result is the concatenation of all frames produced, together with how the
final drain stopped. -/
def runChunksAux : ReaderState → List (List Nat) → List NSQFrame × GetStop
  | _, [] => ([], .pending)
  | s, [c] =>
    let s1 := Reader.feed s c
    let r := drainR (s1.buffer.length + 1) s1
    (r.1, r.2.1)
  | s, c :: c2 :: cs =>
    let s1 := Reader.feed s c
    let r := drainR (s1.buffer.length + 1) s1
    let r' := runChunksAux r.2.2 (c2 :: cs)
    (r.1 ++ r'.1, r'.2)

/-- Feed a chunking of a byte stream to a fresh `Reader`, calling `get`
repeatedly after each chunk. -/
def runChunks (chunks : List (List Nat)) : List NSQFrame × GetStop :=
  runChunksAux initialReader chunks

/-- Pure counterpart of `runChunksAux`, carried by the buffer alone. -/
def pureRunChunksAux : List Nat → List (List Nat) → List NSQFrame × GetStop
  | _, [] => ([], .pending)
  | b, [c] =>
    let r := drainFull (b ++ c)
    (r.1, r.2.1)
  | b, c :: c2 :: cs =>
    let r := drainFull (b ++ c)
    let r' := pureRunChunksAux r.2.2 (c2 :: cs)
    (r.1 ++ r'.1, r'.2)

/-- Every size field read along the stream is non-negative: the parser reads a
size at the head, and — whenever a frame starting there can ever be completed
(at least `4 + size` bytes and the 4 frame-type bytes available) — again after
dropping that frame.  `fuel` is an upper bound on the recursion depth; the
wrapper `sizesNonneg` instantiates it with the buffer length, which always
suffices since each step drops at least 4 bytes. -/
def sizesNonnegF : Nat → List Nat → Bool
  | 0, _ => true
  | fuel + 1, b =>
    if b.length < 4 then true
    else if 0 ≤ int32BEv (pySlice b 0 4) then
      if 4 + int32BEv (pySlice b 0 4) ≤ (b.length : Int) ∧ 8 ≤ b.length then
        sizesNonnegF fuel (b.drop (4 + int32BEv (pySlice b 0 4)).toNat)
      else true
    else false

/-- Every size field the codec reads along the byte stream is non-negative. -/
def sizesNonneg (b : List Nat) : Bool := sizesNonnegF b.length b

/-- A complete wire frame: big-endian int32 size field (`4 + body length`),
big-endian int32 frame type, then the payload body. -/
def mkFrame (ft : Int) (body : List Nat) : List Nat :=
  packInt32BE (4 + (body.length : Int)) ++ packInt32BE ft ++ body

/-- A `ReaderState` is coherent when its cached `_is_header` / `_payload_size`
agree with the buffer contents.  Every state reachable from `Reader()` by
`feed` and `get` is coherent. -/
def Coh (s : ReaderState) : Prop :=
  s.isHeader = true →
    (4 ≤ (s.buffer.length : Int) ∧ s.payloadSize = int32BEv (pySlice s.buffer 0 4))


/-! ### The command encoder (`Reader.encode_command`, `tcp/protocol.py`) -/

/-- UTF-8 encoding of one code point. -/
def utf8Bytes (c : Nat) : List Nat :=
  if c < 0x80 then [c]
  else if c < 0x800 then [0xC0 + c / 64, 0x80 + c % 64]
  else if c < 0x10000 then [0xE0 + c / 4096, 0x80 + c / 64 % 64, 0x80 + c % 64]
  else [0xF0 + c / 262144, 0x80 + c / 4096 % 64, 0x80 + c / 64 % 64, 0x80 + c % 64]

/-- Modelled from the spec: the `_convert_to_bytes` utility family is declared
out of scope by the spec and its source is not under `src/`; for strings it is
modelled as UTF-8 encoding, and byte-string inputs are already byte lists in
this embedding. -/
def strBytes (s : String) : List Nat :=
  (s.data.map (fun ch => utf8Bytes ch.toNat)).flatten

/-- Python `str.upper()` (restricted to the simple one-to-one case, which
covers the ASCII command names used by the client). -/
def pyUpper (s : String) : String := ⟨s.data.map Char.toUpper⟩

/-- Python `str.strip()`: remove leading and trailing whitespace. -/
def pyStrip (s : String) : String :=
  ⟨((s.data.dropWhile Char.isWhitespace).reverse.dropWhile Char.isWhitespace).reverse⟩

/-- The `data` argument of `encode_command`: absent, a single byte string, or
a list of byte strings (the `MPUB` case). -/
inductive CmdData
  | noData
  | single (b : List Nat)
  | parts (ps : List (List Nat))
deriving DecidableEq, Repr

namespace Reader

/-- `Reader._encode_body`: `struct.pack('>l', len(data)) + data`. -/
def encodeBody (data : List Nat) : List Nat :=
  packInt32BE data.length ++ data

/-- `Reader.encode_command`: upper-cased stripped command name, a single
space before the space-joined arguments when there are any, a newline, then
the body.  A non-empty list `data` gets the composite `MPUB` framing
`pack(len(payload)) ++ pack(num_parts) ++ parts`; a non-empty single blob gets
`_encode_body`; empty or absent data contributes nothing (Python's
`if data and isinstance(data, (list, tuple))` / `elif data`). -/
def encodeCommand (cmd : String) (args : List String) (data : CmdData) : List Nat :=
  let c := strBytes (pyStrip (pyUpper cmd))
  let argBytes := args.map strBytes
  let paramsData := if argBytes.length ≠ 0 then 32 :: (List.intercalate [32] argBytes) else []
  let bodyData :=
    match data with
    | .parts ps =>
      if ps ≠ [] then
        let dataEncoded := ps.map encodeBody
        let payload := packInt32BE ps.length ++ dataEncoded.flatten
        packInt32BE payload.length ++ payload
      else []
    | .single b => if b ≠ [] then encodeBody b else []
    | .noData => []
  c ++ paramsData ++ [10] ++ bodyData

end Reader

/-! ### `ConnectionStatus` (`tcp/consts.py`) -/

/-- The distinct members of the Python `ConnectionStatus` enum.  The source
assigns `CLOSED = 0` and `CLOSING = 0`: by Python `Enum` aliasing the name
`CLOSING` does not create a member but becomes an alias of `CLOSED`, so the
enum has exactly these five members. -/
inductive ConnectionStatus
  | CLOSED
  | INIT
  | CONNECTED
  | SUBSCRIBED
  | RECONNECTING
deriving DecidableEq, Repr

namespace ConnectionStatus

/-- `ConnectionStatus.CLOSING` resolves to the `CLOSED` member (alias of
value 0). -/
def CLOSING : ConnectionStatus := CLOSED

/-- The `value` of each member. -/
def value : ConnectionStatus → Nat
  | CLOSED => 0
  | INIT => 1
  | CONNECTED => 2
  | SUBSCRIBED => 3
  | RECONNECTING => 4

/-- `is_closed`: `self == self.CLOSED`. -/
def is_closed (s : ConnectionStatus) : Bool := s = CLOSED

/-- `is_closing`: `self == self.CLOSING`. -/
def is_closing (s : ConnectionStatus) : Bool := s = CLOSING

end ConnectionStatus

/-! ### The consumer's static-address `connect` (`tcp/reader.py`) -/

/-- Modelled from the spec: `create_connection` (`tcp/connection.py`, not
under `src/`) yields a connection whose identity is `"tcp://host:port"`
(spec §3 "Connection state"; `reader.py` builds the same id string in
`_poll_lookupd`). -/
def connId (addr : String × Nat) : String :=
  "tcp://" ++ addr.1 ++ ":" ++ toString addr.2

/-- The static-address branch of `Reader.connect` (`tcp/reader.py` lines
94–102): the `for` loop opens a connection per address, but the assignment
`self._connections[conn.id] = conn` sits after the loop, so only the
connection bound to the loop variable at exit — the one for the last
address — is stored in the (initially empty) connection map and handed to
`RdyControl.add_connections`. -/
def connectStatic (addrs : List (String × Nat)) : List String :=
  match addrs.getLast? with
  | none => []
  | some a => [connId a]

/-- `Reader.messages` (`tcp/reader.py`): an async generator that raises
`ValueError` when the subscribe flag is unset and otherwise yields the
messages of the shared queue (the flag is not mutated inside the loop, so on
a finite queue abstraction the generator yields the queue's contents). -/
def readerMessages (isSubscribe : Bool) (queue : List Nat) :
    Except String (List Nat) :=
  if ¬ isSubscribe then Except.error "You must subscribe to the topic first"
  else Except.ok queue

/-- `Reader.wait_messages` (`tcp/reader.py`): same guard and loop as
`Reader.messages`, yielding futures of the queue items. -/
def readerWaitMessages (isSubscribe : Bool) (queue : List Nat) :
    Except String (List Nat) :=
  if ¬ isSubscribe then Except.error "You must subscribe to the topic first"
  else Except.ok queue

/-! ### The lookupd HTTP client (`http/base.py`) -/

/-- Abstraction of an HTTP response body: either text that `json.loads`
parses (the parsed value is abstracted to a tag) or text that it rejects. -/
inductive HttpRespBody
  | jsonBody (v : Nat)
  | rawBody (s : String)
deriving DecidableEq, Repr

/-- What `perform_request` returns on the non-raising paths. -/
inductive HttpResult
  | parsed (v : Nat)
  | raw (s : String)
deriving DecidableEq, Repr

/-- The exceptions `perform_request` raises. -/
inductive NsqHttpError
  | topicNotFound
  | domainError (status : Nat)
  | generic (status : Nat)
deriving DecidableEq, Repr

/-- Modelled from the spec: the `HTTP_EXCEPTIONS` status→exception map
(`http/http_exceptions.py`, not under `src/`): 4xx statuses map to domain
errors, 404 to `TopicNotFound`; other statuses fall back to
`NsqHttpException`. -/
def httpExceptionFor (status : Nat) : NsqHttpError :=
  if status = 404 then .topicNotFound
  else if 400 ≤ status ∧ status ≤ 499 then .domainError status
  else .generic status

/-- `NsqHTTPConnection.perform_request` (`http/base.py`), as a function of
the response's status and body: the body is read and passed to `json.loads`;
when that raises `ValueError` the raw text is returned immediately — before
any status check.  Otherwise, a status outside `200 <= status <= 300` raises
`HTTP_EXCEPTIONS.get(status, NsqHttpException)`, and an in-range status
returns the parsed JSON. -/
def performRequest (status : Nat) (body : HttpRespBody) :
    Except NsqHttpError HttpResult :=
  match body with
  | .rawBody s => .ok (.raw s)
  | .jsonBody v =>
    if 200 ≤ status ∧ status ≤ 300 then .ok (.parsed v)
    else .error (httpExceptionFor status)

/-! ### Lemmas about Python slicing -/

theorem pyIndex_eq (n : Nat) (i : Int) (h0 : 0 ≤ i) (h : i ≤ (n : Int)) :
    pyIndex n i = i.toNat := by
  unfold pyIndex
  rw [if_neg (by omega), Nat.min_eq_left (by omega)]

theorem length_pySlice (b : List Nat) (i j : Int) (h0 : 0 ≤ i) (h1 : 0 ≤ j) :
    (pySlice b i j).length = min j.toNat b.length - min i.toNat b.length := by
  unfold pySlice pyIndex
  rw [if_neg (by omega), if_neg (by omega)]
  simp only [List.length_take, List.length_drop]
  omega

theorem pySlice_append (b c : List Nat) (i j : Int) (h0 : 0 ≤ i) (h1 : 0 ≤ j)
    (h2 : i ≤ (b.length : Int)) (h3 : j ≤ (b.length : Int)) :
    pySlice (b ++ c) i j = pySlice b i j := by
  unfold pySlice
  rw [pyIndex_eq _ _ h0 (by simp; omega), pyIndex_eq _ _ h1 (by simp; omega),
    pyIndex_eq _ _ h0 h2, pyIndex_eq _ _ h1 h3]
  dsimp only
  rw [List.drop_append_of_le_length (by omega),
    List.take_append_of_le_length (by simp only [List.length_drop]; omega)]

theorem pySliceFrom_eq_drop (b : List Nat) (i : Int) (h0 : 0 ≤ i) :
    pySliceFrom b i = b.drop i.toNat := by
  unfold pySliceFrom pyIndex
  rw [if_neg (by omega)]
  rcases le_or_lt i.toNat b.length with h | h
  · rw [Nat.min_eq_left h]
  · rw [Nat.min_eq_right h.le, List.drop_length,
      List.drop_eq_nil_of_le (by omega)]

theorem pySliceFrom_append (b c : List Nat) (i : Int) (h0 : 0 ≤ i)
    (h2 : i ≤ (b.length : Int)) :
    pySliceFrom (b ++ c) i = pySliceFrom b i ++ c := by
  rw [pySliceFrom_eq_drop _ _ h0, pySliceFrom_eq_drop _ _ h0,
    List.drop_append_of_le_length (by omega)]

/-! ### Shape and append-stability of the parse step -/

theorem le_length_of_unpack_some (b : List Nat) (v : Int)
    (h : unpackInt32BE (pySlice b 4 8) = some v) :
    8 ≤ b.length := by
  unfold unpackInt32BE at h
  by_cases hl : (pySlice b 4 8).length = 4
  · have := length_pySlice b 4 8 (by norm_num) (by norm_num)
    rw [hl] at this
    omega
  · rw [if_neg hl] at h
    exact absurd h (by simp)

theorem parseAttempt_shape (b : List Nat) (z : Int) :
    (Reader.parseAttempt b z = (.pending, b) ∧ ¬ ((b.length : Int) ≥ 4 + z))
    ∨ (∃ e, Reader.parseAttempt b z = (.exc e, b) ∧ (b.length : Int) ≥ 4 + z)
    ∨ (∃ f, Reader.parseAttempt b z = (.frame f, pySliceFrom b (4 + z))
        ∧ (b.length : Int) ≥ 4 + z ∧ 8 ≤ b.length) := by
  unfold Reader.parseAttempt
  by_cases hlen : (b.length : Int) ≥ 4 + z
  · rw [if_pos hlen]
    cases hft : unpackInt32BE (pySlice b 4 8) with
    | none => exact Or.inr (Or.inl ⟨.structError, rfl, hlen⟩)
    | some ftv =>
      dsimp only
      by_cases hv : ftv = 0 ∨ ftv = 1 ∨ ftv = 2
      · rw [if_pos hv]
        cases hp : Reader.parsePayload b ftv z with
        | error e => exact Or.inr (Or.inl ⟨e, rfl, hlen⟩)
        | ok f =>
          exact Or.inr (Or.inr ⟨f, rfl, hlen, le_length_of_unpack_some b ftv hft⟩)
      · rw [if_neg hv]
        exact Or.inr (Or.inl ⟨.frameTypeValueError, rfl, hlen⟩)
  · rw [if_neg hlen]
    exact Or.inl ⟨rfl, hlen⟩

theorem unpackResponse_append (b c : List Nat) (z : Int) (hz : 0 ≤ z)
    (h8 : 8 ≤ b.length) (hlen : 4 + z ≤ (b.length : Int)) :
    Reader.unpackResponse (b ++ c) z = Reader.unpackResponse b z := by
  unfold Reader.unpackResponse
  exact pySlice_append b c _ _ (by norm_num) (by omega) (by omega) (by omega)

theorem parsePayload_append (b c : List Nat) (ft z : Int) (hz : 0 ≤ z)
    (h8 : 8 ≤ b.length) (hlen : 4 + z ≤ (b.length : Int)) :
    Reader.parsePayload (b ++ c) ft z = Reader.parsePayload b ft z := by
  unfold Reader.parsePayload Reader.unpackError Reader.unpackMessage
  rw [unpackResponse_append b c z hz h8 hlen]

theorem parseAttempt_append (b c : List Nat) (z : Int) (hz : 0 ≤ z)
    (f : NSQFrame) (r : List Nat)
    (hb : Reader.parseAttempt b z = (.frame f, r)) :
    Reader.parseAttempt (b ++ c) z = (.frame f, r ++ c) := by
  unfold Reader.parseAttempt at hb
  by_cases hlen : (b.length : Int) ≥ 4 + z
  · rw [if_pos hlen] at hb
    cases hft : unpackInt32BE (pySlice b 4 8) with
    | none =>
      rw [hft] at hb
      exact absurd hb (by simp)
    | some ftv =>
      rw [hft] at hb
      dsimp only at hb
      have h8 : 8 ≤ b.length := le_length_of_unpack_some b ftv hft
      by_cases hv : ftv = 0 ∨ ftv = 1 ∨ ftv = 2
      · rw [if_pos hv] at hb
        cases hp : Reader.parsePayload b ftv z with
        | error e =>
          rw [hp] at hb
          exact absurd hb (by simp)
        | ok f' =>
          rw [hp] at hb
          simp only [Prod.mk.injEq, GetOut.frame.injEq] at hb
          obtain ⟨hf, hr⟩ := hb
          subst hf
          unfold Reader.parseAttempt
          rw [if_pos (by simp only [List.length_append, Nat.cast_add]; omega),
            pySlice_append b c 4 8 (by norm_num) (by norm_num)
              (by omega) (by omega)]
          simp only [hft]
          rw [if_pos hv, parsePayload_append b c ftv z hz h8 hlen, hp]
          dsimp only
          rw [pySliceFrom_append b c _ (by omega) hlen, hr]
      · rw [if_neg hv] at hb
        exact absurd hb (by simp)
  · rw [if_neg hlen] at hb
    exact absurd hb (by simp)

theorem pureGet_shape (b : List Nat) :
    pureGet b = (.pending, b)
    ∨ (∃ e, pureGet b = (.exc e, b)
        ∧ (b.length : Int) ≥ 4 + int32BEv (pySlice b 0 4))
    ∨ (∃ f, pureGet b = (.frame f,
          pySliceFrom b (4 + int32BEv (pySlice b 0 4)))
        ∧ (b.length : Int) ≥ 4 + int32BEv (pySlice b 0 4)
        ∧ 8 ≤ b.length) := by
  unfold pureGet
  by_cases h4 : (b.length : Int) ≥ 4
  · rw [if_pos h4]
    rcases parseAttempt_shape b (int32BEv (pySlice b 0 4)) with
      ⟨h, _⟩ | ⟨e, h, h1⟩ | ⟨f, h, h1, h2⟩
    · exact Or.inl h
    · exact Or.inr (Or.inl ⟨e, h, h1⟩)
    · exact Or.inr (Or.inr ⟨f, h, h1, h2⟩)
  · rw [if_neg h4]
    exact Or.inl rfl

theorem pureGet_frame_append (b c : List Nat) (f : NSQFrame) (r : List Nat)
    (hb : pureGet b = (.frame f, r))
    (hz : 0 ≤ int32BEv (pySlice b 0 4)) :
    pureGet (b ++ c) = (.frame f, r ++ c) := by
  unfold pureGet at hb ⊢
  by_cases h4 : (b.length : Int) ≥ 4
  · rw [if_pos h4] at hb
    rw [if_pos (by simp only [List.length_append, Nat.cast_add]; omega)]
    rw [pySlice_append b c 0 4 (le_refl 0) (by norm_num) (by omega) (by omega)]
    exact parseAttempt_append b c _ hz f r hb
  · rw [if_neg h4] at hb
    exact absurd hb (by simp)

/-! ### Lemmas about `sizesNonneg` -/

theorem sizesNonnegF_irrel :
    ∀ (f1 f2 : Nat) (b : List Nat), b.length ≤ f1 → b.length ≤ f2 →
      sizesNonnegF f1 b = sizesNonnegF f2 b := by
  intro f1
  induction f1 with
  | zero =>
    intro f2 b h1 h2
    cases f2 with
    | zero => rfl
    | succ m =>
      show true = sizesNonnegF (m + 1) b
      unfold sizesNonnegF
      rw [if_pos (by omega)]
  | succ n ih =>
    intro f2 b h1 h2
    cases f2 with
    | zero =>
      show sizesNonnegF (n + 1) b = true
      unfold sizesNonnegF
      rw [if_pos (by omega)]
    | succ m =>
      unfold sizesNonnegF
      by_cases h4 : b.length < 4
      · rw [if_pos h4, if_pos h4]
      · rw [if_neg h4, if_neg h4]
        by_cases h0 : 0 ≤ int32BEv (pySlice b 0 4)
        · rw [if_pos h0, if_pos h0]
          by_cases h3 : 4 + int32BEv (pySlice b 0 4) ≤ (b.length : Int) ∧ 8 ≤ b.length
          · rw [if_pos h3, if_pos h3]
            apply ih
            · simp only [List.length_drop]
              omega
            · simp only [List.length_drop]
              omega
          · rw [if_neg h3, if_neg h3]
        · rw [if_neg h0, if_neg h0]

theorem sizesNonneg_eq (b : List Nat) :
    sizesNonneg b =
      if b.length < 4 then true
      else if 0 ≤ int32BEv (pySlice b 0 4) then
        if 4 + int32BEv (pySlice b 0 4) ≤ (b.length : Int) ∧ 8 ≤ b.length then
          sizesNonneg (b.drop (4 + int32BEv (pySlice b 0 4)).toNat)
        else true
      else false := by
  have key : sizesNonneg b = sizesNonnegF (b.length + 1) b :=
    sizesNonnegF_irrel b.length (b.length + 1) b (le_refl _) (by omega)
  rw [key]
  unfold sizesNonnegF
  by_cases h4 : b.length < 4
  · rw [if_pos h4, if_pos h4]
  · rw [if_neg h4, if_neg h4]
    by_cases h0 : 0 ≤ int32BEv (pySlice b 0 4)
    · rw [if_pos h0, if_pos h0]
      by_cases h3 : 4 + int32BEv (pySlice b 0 4) ≤ (b.length : Int) ∧ 8 ≤ b.length
      · rw [if_pos h3, if_pos h3]
        exact sizesNonnegF_irrel _ _ _
          (by simp only [List.length_drop]; omega) (le_refl _)
      · rw [if_neg h3, if_neg h3]
    · rw [if_neg h0, if_neg h0]

theorem sizesNonneg_step (b c : List Nat)
    (h : sizesNonneg (b ++ c) = true) (h8 : 8 ≤ b.length)
    (hlen : 4 + int32BEv (pySlice b 0 4) ≤ (b.length : Int)) :
    0 ≤ int32BEv (pySlice b 0 4) ∧
    sizesNonneg (pySliceFrom b (4 + int32BEv (pySlice b 0 4)) ++ c) = true := by
  rw [sizesNonneg_eq] at h
  rw [pySlice_append b c 0 4 (le_refl 0) (by norm_num) (by omega) (by omega)] at h
  rw [if_neg (by simp only [List.length_append]; omega)] at h
  by_cases h0 : 0 ≤ int32BEv (pySlice b 0 4)
  · rw [if_pos h0] at h
    rw [if_pos ⟨by simp only [List.length_append, Nat.cast_add]; omega,
      by simp only [List.length_append]; omega⟩] at h
    refine ⟨h0, ?_⟩
    rw [List.drop_append_of_le_length (by omega)] at h
    rw [pySliceFrom_eq_drop _ _ (by omega)]
    exact h
  · rw [if_neg h0] at h
    exact absurd h (by simp)

/-! ### Fuel bookkeeping for `pureDrain` -/

theorem pureDrain_succ_pending (n : Nat) (b : List Nat)
    (h : pureGet b = (.pending, b)) :
    pureDrain (n + 1) b = ([], .pending, b) := by
  unfold pureDrain
  rw [h]

theorem pureDrain_succ_exc (n : Nat) (b : List Nat) (e : PyError)
    (h : pureGet b = (.exc e, b)) :
    pureDrain (n + 1) b = ([], .exc e, b) := by
  unfold pureDrain
  rw [h]

theorem pureDrain_succ_frame (n : Nat) (b r : List Nat) (f : NSQFrame)
    (h : pureGet b = (.frame f, r)) :
    pureDrain (n + 1) b =
      (f :: (pureDrain n r).1, (pureDrain n r).2.1, (pureDrain n r).2.2) := by
  conv_lhs => unfold pureDrain
  rw [h]

theorem pureDrain_no_fuelOut :
    ∀ (fuel : Nat) (b c : List Nat), sizesNonneg (b ++ c) = true →
      b.length < fuel → (pureDrain fuel b).2.1 ≠ .fuelOut := by
  intro fuel
  induction fuel with
  | zero =>
    intro b c _ hlt
    omega
  | succ n ih =>
    intro b c h hlt
    rcases pureGet_shape b with hp | ⟨e, he, _⟩ | ⟨f, hf, hlen, h8⟩
    · rw [pureDrain_succ_pending n b hp]
      simp
    · rw [pureDrain_succ_exc n b e he]
      simp
    · obtain ⟨hsz, hrec⟩ := sizesNonneg_step b c h h8 hlen
      have hrlen : (pySliceFrom b (4 + int32BEv (pySlice b 0 4))).length ≤ b.length - 4 := by
        rw [pySliceFrom_eq_drop _ _ (by omega)]
        simp only [List.length_drop]
        omega
      rw [pureDrain_succ_frame n b _ f hf]
      exact ih _ c hrec (by omega)

theorem pureDrain_fuel_mono :
    ∀ (f1 : Nat) (b : List Nat), (pureDrain f1 b).2.1 ≠ .fuelOut →
      ∀ f2, f1 ≤ f2 → pureDrain f2 b = pureDrain f1 b := by
  intro f1
  induction f1 with
  | zero =>
    intro b h f2 _
    exact absurd rfl h
  | succ n ih =>
    intro b h f2 hle
    cases f2 with
    | zero => omega
    | succ m =>
      rcases pureGet_shape b with hp | ⟨e, he, _⟩ | ⟨f, hf, _, _⟩
      · rw [pureDrain_succ_pending n b hp, pureDrain_succ_pending m b hp]
      · rw [pureDrain_succ_exc n b e he, pureDrain_succ_exc m b e he]
      · rw [pureDrain_succ_frame n b _ f hf] at h
        rw [pureDrain_succ_frame n b _ f hf, pureDrain_succ_frame m b _ f hf]
        have h' : (pureDrain n (pySliceFrom b (4 + int32BEv (pySlice b 0 4)))).2.1 ≠ .fuelOut := by
          simpa using h
        rw [ih _ h' m (by omega)]

theorem pureDrain_eq_drainFull (b c : List Nat) (fuel : Nat)
    (h : sizesNonneg (b ++ c) = true) (hlt : b.length < fuel) :
    pureDrain fuel b = drainFull b := by
  unfold drainFull
  have h1 : (pureDrain (b.length + 1) b).2.1 ≠ .fuelOut :=
    pureDrain_no_fuelOut (b.length + 1) b c h (by omega)
  rcases le_or_lt fuel (b.length + 1) with hle | hlt2
  · have : fuel = b.length + 1 := by omega
    rw [this]
  · exact pureDrain_fuel_mono (b.length + 1) b h1 fuel (by omega)

/-! ### The drain of a concatenation splits at any chunk boundary -/

theorem drainFull_append_aux :
    ∀ (n : Nat) (b c : List Nat), b.length ≤ n → sizesNonneg (b ++ c) = true →
      sizesNonneg ((drainFull b).2.2 ++ c) = true ∧
      drainFull (b ++ c) =
        ((drainFull b).1 ++ (drainFull ((drainFull b).2.2 ++ c)).1,
         (drainFull ((drainFull b).2.2 ++ c)).2.1,
         (drainFull ((drainFull b).2.2 ++ c)).2.2) := by
  intro n
  induction n with
  | zero =>
    intro b c hn h
    have hb : b = [] := List.length_eq_zero.mp (by omega)
    subst hb
    have hd : drainFull ([] : List Nat) = ([], .pending, []) := rfl
    rw [hd]
    refine ⟨by simpa using h, by simp⟩
  | succ n ih =>
    intro b c hn h
    rcases pureGet_shape b with hp | ⟨e, he, _⟩ | ⟨f, hf, hlen, h8⟩
    · have hd : drainFull b = ([], .pending, b) := by
        unfold drainFull
        exact pureDrain_succ_pending _ _ hp
      rw [hd]
      exact ⟨h, by simp⟩
    · have hd : drainFull b = ([], .exc e, b) := by
        unfold drainFull
        exact pureDrain_succ_exc _ _ _ he
      rw [hd]
      exact ⟨h, by simp⟩
    · obtain ⟨hsz, hrec⟩ := sizesNonneg_step b c h h8 hlen
      set sz := int32BEv (pySlice b 0 4) with hszdef
      set r := pySliceFrom b (4 + sz) with hrdef
      have hrlen : r.length ≤ b.length - 4 := by
        rw [hrdef, pySliceFrom_eq_drop _ _ (by omega)]
        simp only [List.length_drop]
        omega
      have hdb : drainFull b = (f :: (drainFull r).1, (drainFull r).2.1, (drainFull r).2.2) := by
        conv_lhs => unfold drainFull
        rw [pureDrain_succ_frame b.length b r f hf,
          pureDrain_eq_drainFull r c b.length hrec (by omega)]
      have hfr' : pureGet (b ++ c) = (.frame f, r ++ c) :=
        pureGet_frame_append b c f r hf hsz
      have hdbc : drainFull (b ++ c) =
          (f :: (drainFull (r ++ c)).1, (drainFull (r ++ c)).2.1, (drainFull (r ++ c)).2.2) := by
        conv_lhs => unfold drainFull
        rw [pureDrain_succ_frame (b ++ c).length (b ++ c) (r ++ c) f hfr',
          pureDrain_eq_drainFull (r ++ c) [] (b ++ c).length (by simpa using hrec)
            (by simp only [List.length_append]; omega)]
      obtain ⟨ih1, ih2⟩ := ih r c (by omega) hrec
      refine ⟨by rw [hdb]; exact ih1, ?_⟩
      rw [hdbc, hdb, ih2]
      simp

theorem pureRunChunksAux_one (b c : List Nat) :
    pureRunChunksAux b [c] = ((drainFull (b ++ c)).1, (drainFull (b ++ c)).2.1) := rfl

theorem pureRunChunksAux_cons2 (b c c2 : List Nat) (cs : List (List Nat)) :
    pureRunChunksAux b (c :: c2 :: cs) =
      ((drainFull (b ++ c)).1 ++ (pureRunChunksAux (drainFull (b ++ c)).2.2 (c2 :: cs)).1,
       (pureRunChunksAux (drainFull (b ++ c)).2.2 (c2 :: cs)).2) := rfl

theorem pureRunChunksAux_eq_single :
    ∀ (cs : List (List Nat)) (c b : List Nat),
      sizesNonneg (b ++ c ++ cs.flatten) = true →
      pureRunChunksAux b (c :: cs) =
        ((drainFull (b ++ c ++ cs.flatten)).1, (drainFull (b ++ c ++ cs.flatten)).2.1) := by
  intro cs
  induction cs with
  | nil =>
    intro c b _
    simp only [List.flatten_nil, List.append_nil]
    exact pureRunChunksAux_one b c
  | cons c2 cs' ih =>
    intro c b h
    have h' : sizesNonneg ((b ++ c) ++ (c2 ++ cs'.flatten)) = true := by
      simpa [List.flatten_cons, List.append_assoc] using h
    obtain ⟨h1, h2⟩ := drainFull_append_aux (b ++ c).length (b ++ c)
      (c2 ++ cs'.flatten) (le_refl _) h'
    have hih := ih c2 (drainFull (b ++ c)).2.2
      (by simpa [List.append_assoc] using h1)
    rw [pureRunChunksAux_cons2, hih]
    have hflat : b ++ c ++ (c2 :: cs').flatten = (b ++ c) ++ (c2 ++ cs'.flatten) := by
      simp [List.flatten_cons, List.append_assoc]
    rw [hflat, h2]
    simp [List.append_assoc]

/-! ### Coherence: the cached header always agrees with the buffer -/

theorem Coh_initial : Coh initialReader := by
  intro h
  simp [initialReader] at h

theorem feed_buffer (s : ReaderState) (c : List Nat) :
    (Reader.feed s c).buffer = s.buffer ++ c := by
  unfold Reader.feed
  split <;> simp_all

theorem feed_isHeader (s : ReaderState) (c : List Nat) :
    (Reader.feed s c).isHeader = s.isHeader := by
  unfold Reader.feed
  split <;> rfl

theorem feed_payloadSize (s : ReaderState) (c : List Nat) :
    (Reader.feed s c).payloadSize = s.payloadSize := by
  unfold Reader.feed
  split <;> rfl

theorem Coh_feed (s : ReaderState) (c : List Nat) (h : Coh s) :
    Coh (Reader.feed s c) := by
  intro hH
  rw [feed_isHeader] at hH
  obtain ⟨h4, hp⟩ := h hH
  rw [feed_buffer, feed_payloadSize]
  refine ⟨by simp only [List.length_append, Nat.cast_add]; omega, ?_⟩
  rw [pySlice_append s.buffer c 0 4 (le_refl 0) (by norm_num) (by omega) (by omega)]
  exact hp

theorem get_isHeader_true (b : List Nat) (ps : Int) :
    Reader.get ⟨b, true, ps⟩ =
      (match Reader.parseAttempt b ps with
       | (.frame f, b') => (.frame f, ⟨b', false, 0⟩)
       | (.pending, _) => (.pending, ⟨b, true, ps⟩)
       | (.exc e, _) => (.exc e, ⟨b, true, ps⟩)) := rfl

theorem get_isHeader_false (b : List Nat) (ps : Int) :
    Reader.get ⟨b, false, ps⟩ =
      if (b.length : Int) ≥ 4 then
        (match Reader.parseAttempt b (int32BEv (pySlice b 0 4)) with
         | (.frame f, b') => (.frame f, ⟨b', false, 0⟩)
         | (.pending, _) => (.pending, ⟨b, true, int32BEv (pySlice b 0 4)⟩)
         | (.exc e, _) => (.exc e, ⟨b, true, int32BEv (pySlice b 0 4)⟩))
      else (.pending, ⟨b, false, ps⟩) := by
  by_cases h4 : (b.length : Int) ≥ 4
  · rw [if_pos h4]
    unfold Reader.get
    dsimp only
    have hcond : ¬false = true ∧ (b.length : Int) ≥ 4 := ⟨by simp, h4⟩
    rw [if_pos hcond]
    rfl
  · rw [if_neg h4]
    unfold Reader.get
    dsimp only
    have hcond : ¬(¬false = true ∧ (b.length : Int) ≥ 4) := fun hc => h4 hc.2
    rw [if_neg hcond]
    rfl

theorem get_eq_pure (s : ReaderState) (h : Coh s) :
    (Reader.get s).1 = (pureGet s.buffer).1 ∧
    (Reader.get s).2.buffer = (pureGet s.buffer).2 ∧
    Coh (Reader.get s).2 := by
  obtain ⟨b, hdr, ps⟩ := s
  cases hdr with
  | false =>
    by_cases h4 : (b.length : Int) ≥ 4
    · rw [get_isHeader_false b ps, if_pos h4]
      unfold pureGet
      rw [if_pos h4]
      rcases parseAttempt_shape b (int32BEv (pySlice b 0 4)) with
        ⟨hpa, _⟩ | ⟨e, hpa, _⟩ | ⟨f, hpa, _, _⟩ <;> rw [hpa]
      · exact ⟨rfl, rfl, fun _ => ⟨h4, rfl⟩⟩
      · exact ⟨rfl, rfl, fun _ => ⟨h4, rfl⟩⟩
      · exact ⟨rfl, rfl, fun hh => by simp at hh⟩
    · rw [get_isHeader_false b ps, if_neg h4]
      unfold pureGet
      rw [if_neg h4]
      exact ⟨rfl, rfl, h⟩
  | true =>
    obtain ⟨h4, hp⟩ := h rfl
    rw [get_isHeader_true b ps]
    unfold pureGet
    rw [if_pos h4]
    simp only at hp
    rw [← hp]
    rcases parseAttempt_shape b ps with ⟨hpa, _⟩ | ⟨e, hpa, _⟩ | ⟨f, hpa, _, _⟩ <;> rw [hpa]
    · exact ⟨rfl, rfl, h⟩
    · exact ⟨rfl, rfl, h⟩
    · exact ⟨rfl, rfl, fun hh => by simp at hh⟩

theorem drainR_eq_pure :
    ∀ (fuel : Nat) (s : ReaderState), Coh s →
      (drainR fuel s).1 = (pureDrain fuel s.buffer).1 ∧
      (drainR fuel s).2.1 = (pureDrain fuel s.buffer).2.1 ∧
      (drainR fuel s).2.2.buffer = (pureDrain fuel s.buffer).2.2 ∧
      Coh (drainR fuel s).2.2 := by
  intro fuel
  induction fuel with
  | zero =>
    intro s h
    exact ⟨rfl, rfl, rfl, h⟩
  | succ n ih =>
    intro s h
    obtain ⟨e1, e2, e3⟩ := get_eq_pure s h
    rcases hg : Reader.get s with ⟨o, s'⟩
    rcases hp : pureGet s.buffer with ⟨o2, b'⟩
    rw [hg] at e1 e2 e3
    rw [hp] at e1 e2
    simp only at e1 e2
    subst e1
    cases o with
    | pending =>
      unfold drainR pureDrain
      rw [hg, hp]
      exact ⟨rfl, rfl, e2, e3⟩
    | exc e =>
      unfold drainR pureDrain
      rw [hg, hp]
      exact ⟨rfl, rfl, e2, e3⟩
    | frame f =>
      unfold drainR pureDrain
      rw [hg, hp]
      obtain ⟨i1, i2, i3, i4⟩ := ih s' e3
      rw [e2] at i1 i2 i3
      exact ⟨by dsimp only; rw [i1], by dsimp only; exact i2,
        by dsimp only; exact i3, by dsimp only; exact i4⟩

theorem runChunksAux_eq_pure :
    ∀ (l : List (List Nat)) (s : ReaderState), Coh s →
      runChunksAux s l = pureRunChunksAux s.buffer l := by
  intro l
  induction l with
  | nil =>
    intro s _
    rfl
  | cons c cs ih =>
    intro s h
    have hb := feed_buffer s c
    have hcoh := Coh_feed s c h
    obtain ⟨i1, i2, i3, i4⟩ :=
      drainR_eq_pure ((Reader.feed s c).buffer.length + 1) (Reader.feed s c) hcoh
    cases cs with
    | nil =>
      show ((drainR ((Reader.feed s c).buffer.length + 1) (Reader.feed s c)).1,
            (drainR ((Reader.feed s c).buffer.length + 1) (Reader.feed s c)).2.1) =
           ((drainFull (s.buffer ++ c)).1, (drainFull (s.buffer ++ c)).2.1)
      rw [i1, i2, hb]
      rfl
    | cons c2 cs' =>
      show ((drainR ((Reader.feed s c).buffer.length + 1) (Reader.feed s c)).1 ++
              (runChunksAux (drainR ((Reader.feed s c).buffer.length + 1) (Reader.feed s c)).2.2 (c2 :: cs')).1,
            (runChunksAux (drainR ((Reader.feed s c).buffer.length + 1) (Reader.feed s c)).2.2 (c2 :: cs')).2) =
           ((drainFull (s.buffer ++ c)).1 ++
              (pureRunChunksAux (drainFull (s.buffer ++ c)).2.2 (c2 :: cs')).1,
            (pureRunChunksAux (drainFull (s.buffer ++ c)).2.2 (c2 :: cs')).2)
      rw [ih _ i4, i1, i3, hb]
      rfl

/-! ### Sanity checks on the codec model -/

example : runChunks [[0, 0, 0, 6, 0, 0, 0, 0, 79, 75]] =
    ([NSQFrame.response [79, 75]], GetStop.pending) := by decide

example : runChunks [[0, 0, 0, 6, 0, 0, 0, 0], [79, 75]] =
    ([NSQFrame.response [79, 75]], GetStop.pending) := by decide

example : sizesNonneg [0, 0, 0, 6, 0, 0, 0, 0, 79, 75] = true := by decide

example : Reader.encodeCommand "MPUB" ["t"] (.parts [[97], [98, 98]]) =
    [77, 80, 85, 66, 32, 116, 10,
     0, 0, 0, 15, 0, 0, 0, 2, 0, 0, 0, 1, 97, 0, 0, 0, 2, 98, 98] := by decide

example : pySplitWs1 [69, 95, 73] = [[69, 95, 73]] := by decide
example : pySplitWs1 [69, 32, 32, 97, 32, 98] = [[69], [97, 32, 98]] := by decide

example :
    runChunks [[0, 0, 0, 32, 0, 0, 0, 2,
                0, 0, 0, 0, 0, 0, 0, 1, 0, 1,
                48, 49, 50, 51, 52, 53, 54, 55, 56, 57, 97, 98, 99, 100, 101, 102,
                104, 105]] =
    ([NSQFrame.message 1 1 [48, 49, 50, 51, 52, 53, 54, 55, 56, 57, 97, 98, 99, 100, 101, 102]
        [104, 105]], GetStop.pending) := by decide

/-! ### Claims -/

/-- Claim C1 is false as stated: there is a byte stream and a chunking of it
for which feeding the chunks one by one and repeatedly calling `get()` yields
a different sequence of frames than feeding the whole stream at once.  The
stream here carries the size field `-5` (`struct.unpack('>l', ...)` is
signed), which makes the payload slice `buffer[8:-1]` and the buffer rest
`buffer[-1:]` end-relative: fed whole, the codec returns a response frame
with body `AA`; fed split before the last byte, it returns a response frame
with empty body. -/
theorem c1_counterexample :
    runChunks [[255, 255, 255, 251, 0, 0, 0, 0, 170], [187]] ≠
      runChunks [List.flatten [[255, 255, 255, 251, 0, 0, 0, 0, 170], [187]]] := by
  decide

/-- Claim C1 (amended): for every byte stream all of whose size fields are
non-negative, and every way of splitting it into chunks, feeding the chunks
one by one to the framed codec (`Reader.feed`) and repeatedly calling `get()`
yields exactly the same sequence of frames (and the same final stop) as
feeding the whole stream in a single chunk. -/
theorem c1_chunking_invariant (chunks : List (List Nat))
    (h : sizesNonneg chunks.flatten = true) :
    runChunks chunks = runChunks [chunks.flatten] := by
  cases chunks with
  | nil => decide
  | cons c cs =>
    unfold runChunks
    rw [runChunksAux_eq_pure (c :: cs) initialReader Coh_initial,
      runChunksAux_eq_pure [(c :: cs).flatten] initialReader Coh_initial]
    show pureRunChunksAux [] (c :: cs) = pureRunChunksAux [] [(c :: cs).flatten]
    rw [pureRunChunksAux_eq_single cs c []
      (by simpa [List.flatten_cons] using h)]
    rw [pureRunChunksAux_one]
    simp [List.flatten_cons]

/-- Witness for C1: the boundary scenario of the spec (an `OK` response frame
split after its 8 header bytes) instantiates the amended claim. -/
theorem c1_chunking_invariant_witness :
    sizesNonneg (List.flatten [[0, 0, 0, 6, 0, 0, 0, 0], [79, 75]]) = true ∧
    runChunks [[0, 0, 0, 6, 0, 0, 0, 0], [79, 75]] =
      runChunks [List.flatten [[0, 0, 0, 6, 0, 0, 0, 0], [79, 75]]] :=
  ⟨by decide, c1_chunking_invariant [[0, 0, 0, 6, 0, 0, 0, 0], [79, 75]] (by decide)⟩

/-- Claim C2 is false as stated at a buffer whose size field is negative:
`get()` returns a frame but does not consume `4 + size` bytes (it consumes 9
bytes here although `4 + size = -1`), because Python's end-relative slicing
applies to the negative stop index. -/
theorem c2_counterexample :
    (Reader.get ⟨[255, 255, 255, 251, 0, 0, 0, 0, 170, 187], false, 0⟩).1 =
        .frame (.response [170]) ∧
    (Reader.get ⟨[255, 255, 255, 251, 0, 0, 0, 0, 170, 187], false, 0⟩).2.buffer ≠
      ([255, 255, 255, 251, 0, 0, 0, 0, 170, 187] : List Nat).drop
        ((4 + int32BEv (pySlice [255, 255, 255, 251, 0, 0, 0, 0, 170, 187] 0 4)).toNat) ∧
    (((Reader.get ⟨[255, 255, 255, 251, 0, 0, 0, 0, 170, 187], false, 0⟩).2.buffer.length : Int) ≠
      (([255, 255, 255, 251, 0, 0, 0, 0, 170, 187] : List Nat).length : Int) -
        (4 + int32BEv (pySlice [255, 255, 255, 251, 0, 0, 0, 0, 170, 187] 0 4))) := by
  decide

/-- Claim C2 (amended): on every coherent codec state, `get()` returns at
most one frame per call and returns none whenever the buffer does not yet
hold the full 4-byte size prefix plus `size` bytes of payload; when the size
field is non-negative and a frame is returned, the new buffer is exactly the
old buffer with its first `4 + size` bytes dropped (so exactly `4 + size`
bytes are consumed and no frame is partially consumed).  In particular,
feeding `00 00 00 06 00 00 00 00` makes `get()` return none, and then feeding
`4F 4B` makes `get()` return a response frame with body `b"OK"`. -/
theorem c2_get_frame_discipline :
    (∀ s : ReaderState, Coh s →
      (s.buffer.length : Int) < 4 + int32BEv (pySlice s.buffer 0 4) →
      (Reader.get s).1 = .pending) ∧
    (∀ (s : ReaderState) (f : NSQFrame), Coh s →
      0 ≤ int32BEv (pySlice s.buffer 0 4) →
      (Reader.get s).1 = .frame f →
      (Reader.get s).2.buffer =
        s.buffer.drop (4 + int32BEv (pySlice s.buffer 0 4)).toNat) ∧
    (Reader.get (Reader.feed initialReader [0, 0, 0, 6, 0, 0, 0, 0])).1 = .pending ∧
    (Reader.get (Reader.feed
        (Reader.get (Reader.feed initialReader [0, 0, 0, 6, 0, 0, 0, 0])).2
        [79, 75])).1 = .frame (.response [79, 75]) := by
  refine ⟨?_, ?_, by decide, by decide⟩
  · intro s h hlt
    obtain ⟨e1, _, _⟩ := get_eq_pure s h
    rcases pureGet_shape s.buffer with hp | ⟨e, hp, hlen⟩ | ⟨f, hp, hlen, _⟩
    · rw [e1, hp]
    · exact absurd hlen (by omega)
    · exact absurd hlen (by omega)
  · intro s f h hz hf
    obtain ⟨e1, e2, _⟩ := get_eq_pure s h
    rcases pureGet_shape s.buffer with hp | ⟨e, hp, _⟩ | ⟨f', hp, hlen, h8⟩
    · rw [e1, hp] at hf
      exact absurd hf (by simp)
    · rw [e1, hp] at hf
      exact absurd hf (by simp)
    · rw [e2, hp]
      exact pySliceFrom_eq_drop _ _ (by omega)

/-- Witness for C2: the in-progress state holding only the 8 header bytes of
a size-6 frame satisfies the pending clause, and the completed 10-byte frame
satisfies the exact-consumption clause. -/
theorem c2_get_frame_discipline_witness :
    (Reader.get ⟨[0, 0, 0, 6, 0, 0, 0, 0], false, 0⟩).1 = .pending ∧
    (Reader.get ⟨[0, 0, 0, 6, 0, 0, 0, 0, 79, 75], false, 0⟩).2.buffer =
      ([0, 0, 0, 6, 0, 0, 0, 0, 79, 75] : List Nat).drop
        ((4 + int32BEv (pySlice [0, 0, 0, 6, 0, 0, 0, 0, 79, 75] 0 4)).toNat) :=
  ⟨c2_get_frame_discipline.1 ⟨[0, 0, 0, 6, 0, 0, 0, 0], false, 0⟩
      (fun hh => Bool.noConfusion hh) (by decide),
   c2_get_frame_discipline.2.1 ⟨[0, 0, 0, 6, 0, 0, 0, 0, 79, 75], false, 0⟩
      (.response [79, 75]) (fun hh => Bool.noConfusion hh) (by decide) (by decide)⟩

/-- Claim C3 (code bug): on a complete frame whose frame_type field is 3, the
codec's `get()` raises the `ValueError` thrown by the `FrameType(3)` enum
conversion in `Reader.get`, not the `ProtocolError` stated by the claim and
by `get`'s own docstring — the `ProtocolError` branch of `_parse_payload` is
unreachable from `get`, which only calls it with an already-converted
`FrameType`. -/
theorem c3_bad_frame_type_raises_value_error :
    (Reader.get ⟨[0, 0, 0, 4, 0, 0, 0, 3], false, 0⟩).1 = .exc .frameTypeValueError ∧
    (Reader.get ⟨[0, 0, 0, 4, 0, 0, 0, 3], false, 0⟩).1 ≠ .exc (.protocolError 3) := by
  decide

/-- Claim C4 (code bug): a complete MESSAGE frame is parsed with
`struct.unpack('>qh16s{}s', ...)`, whose `h` format is a *signed* 16-bit
field, while the claim (and the NSQ wire protocol the module docstring cites)
says attempts is an unsigned 16-bit integer.  On the attempts field bytes
`80 00` the code yields `-32768`, a negative value; timestamp, id and body
are parsed as the claim states. -/
theorem c4_message_attempts_signed :
    (Reader.get ⟨[0, 0, 0, 32, 0, 0, 0, 2,
                  0, 0, 0, 0, 0, 0, 0, 1, 128, 0,
                  48, 49, 50, 51, 52, 53, 54, 55, 56, 57, 97, 98, 99, 100, 101, 102,
                  104, 105], false, 0⟩).1 =
      .frame (.message 1 (-32768)
        [48, 49, 50, 51, 52, 53, 54, 55, 56, 57, 97, 98, 99, 100, 101, 102]
        [104, 105]) ∧
    (-32768 : Int) < 0 := by
  decide

/-- Claim C5 is false as stated: the total-length field of the `MPUB`
composite body is 15 (4 count bytes plus 5 + 6 part bytes), not 14 as the
claim says. -/
theorem c5_counterexample :
    Reader.encodeCommand "MPUB" ["t"] (.parts [[97], [98, 98]]) ≠
      [77, 80, 85, 66, 32, 116, 10,
       0, 0, 0, 14, 0, 0, 0, 2, 0, 0, 0, 1, 97, 0, 0, 0, 2, 98, 98] := by
  decide

/-- Claim C5 (amended): `encode_command("MPUB", "t", data=[b"a", b"bb"])`
returns `MPUB t\n` followed by the composite body: big-endian int32 total
length 15, big-endian int32 count 2, then for each part a big-endian int32
length (1, then 2) followed by the part's bytes. -/
theorem c5_mpub_encoding :
    Reader.encodeCommand "MPUB" ["t"] (.parts [[97], [98, 98]]) =
      [77, 80, 85, 66, 32, 116, 10,
       0, 0, 0, 15, 0, 0, 0, 2, 0, 0, 0, 1, 97, 0, 0, 0, 2, 98, 98] := by
  decide

/-- Claim C6 (code bug): with two static nsqd addresses configured and no
lookupd, `Reader.connect` stores only the connection of the *last* address in
its connection map — the `self._connections[conn.id] = conn` assignment sits
outside the `for` loop — although the claim (and spec note (c)) requires
every connection to be stored. -/
theorem c6_connect_stores_only_last :
    connectStatic [("h1", 4150), ("h2", 4151)] = ["tcp://h2:4151"] ∧
    "tcp://h1:4150" ∉ connectStatic [("h1", 4150), ("h2", 4151)] ∧
    (connectStatic [("h1", 4150), ("h2", 4151)]).length = 1 := by
  decide

/-- Claim C7 (code bug): the source assigns `CLOSED = 0` and `CLOSING = 0`,
so by Python `Enum` aliasing `ConnectionStatus.CLOSING` *is*
`ConnectionStatus.CLOSED`: the two are not distinct values, and `is_closing`
holds exactly when `is_closed` does, contradicting the claim. -/
theorem c7_closing_aliases_closed :
    ConnectionStatus.CLOSING = ConnectionStatus.CLOSED ∧
    ConnectionStatus.CLOSING.value = 0 ∧
    ConnectionStatus.CLOSED.value = 0 ∧
    (ConnectionStatus.CLOSED.is_closing = ConnectionStatus.CLOSED.is_closed ∧
     ConnectionStatus.INIT.is_closing = ConnectionStatus.INIT.is_closed ∧
     ConnectionStatus.CONNECTED.is_closing = ConnectionStatus.CONNECTED.is_closed ∧
     ConnectionStatus.SUBSCRIBED.is_closing = ConnectionStatus.SUBSCRIBED.is_closed ∧
     ConnectionStatus.RECONNECTING.is_closing = ConnectionStatus.RECONNECTING.is_closed) := by
  decide

/-- Claim C8 is false as stated: a 404 response whose body is not valid JSON
makes `perform_request` return the raw body normally — the early
`return resp_body` on a `json.loads` failure runs before any status check —
instead of raising the mapped domain error. -/
theorem c8_counterexample :
    performRequest 404 (.rawBody "oops") = .ok (.raw "oops") := rfl

/-- Claim C8 (amended): for every HTTP response with a 4xx status whose body
parses as JSON, `perform_request` raises the domain error mapped to that
status (for example `TopicNotFound` on 404) and never returns normally. -/
theorem c8_4xx_json_raises (status : Nat) (v : Nat)
    (h4 : 400 ≤ status) (h5 : status ≤ 499) :
    performRequest status (.jsonBody v) = .error (httpExceptionFor status) := by
  unfold performRequest
  dsimp only
  rw [if_neg (by omega)]

/-- Witness for C8: status 404 with a JSON body raises `TopicNotFound`. -/
theorem c8_4xx_json_raises_witness :
    400 ≤ 404 ∧ 404 ≤ 499 ∧
    performRequest 404 (.jsonBody 0) = .error .topicNotFound :=
  ⟨by decide, by decide, (c8_4xx_json_raises 404 0 (by decide) (by decide)).trans rfl⟩

/-- Claim C10 (confirmed): with the subscribe flag unset, both
`Reader.messages` and `Reader.wait_messages` raise
`ValueError('You must subscribe to the topic first')` and yield no messages,
whatever the queue holds. -/
theorem c10_messages_require_subscribe (q : List Nat) :
    readerMessages false q = Except.error "You must subscribe to the topic first" ∧
    readerWaitMessages false q = Except.error "You must subscribe to the topic first" :=
  ⟨rfl, rfl⟩

/-! ### Packing and splitting lemmas for the error-frame claim -/

theorem length_packInt32BE (n : Int) : (packInt32BE n).length = 4 := rfl

theorem int32BEv_packInt32BE (n : Int) (h0 : 0 ≤ n) (h1 : n < 2 ^ 31) :
    int32BEv (packInt32BE n) = n := by
  unfold int32BEv packInt32BE beValue toSigned
  dsimp only
  simp only [List.foldl_cons, List.foldl_nil]
  have hm : (n % (2 ^ 32 : Int)).toNat = n.toNat := by omega
  rw [hm]
  have hval : (((0 * 256 + n.toNat / 2 ^ 24 % 256) * 256 + n.toNat / 2 ^ 16 % 256) * 256
      + n.toNat / 2 ^ 8 % 256) * 256 + n.toNat % 256 = n.toNat := by omega
  rw [hval]
  have h2 : n.toNat % 2 ^ 32 = n.toNat := by omega
  rw [h2, if_pos (by omega)]
  omega

theorem pySlice_of_length_four (l : List Nat) (h : l.length = 4) :
    pySlice l 0 4 = l := by
  unfold pySlice pyIndex
  rw [if_neg (by omega), if_neg (by omega)]
  simp [h]

theorem dropWhile_eq_nil_of_all (p : Nat → Bool) :
    ∀ (l : List Nat), (∀ c ∈ l, p c = true) → l.dropWhile p = [] := by
  intro l h
  induction l with
  | nil => rfl
  | cons a t ih =>
    rw [List.dropWhile_cons, if_pos (h a (by simp))]
    exact ih (fun c hc => h c (by simp [hc]))

theorem pySplitWs1_no_ws_short (body : List Nat)
    (h : ∀ c ∈ body, pyIsSpace c = false) :
    ∀ code msg, pySplitWs1 body ≠ [code, msg] := by
  intro code msg
  unfold pySplitWs1
  cases body with
  | nil => simp
  | cons a t =>
    have ha : pyIsSpace a = false := h a (by simp)
    have hb1 : (a :: t).dropWhile (fun c => pyIsSpace c) = a :: t := by
      rw [List.dropWhile_cons, if_neg (by simp [ha])]
    rw [hb1, if_neg (by simp)]
    dsimp only
    have hall : (a :: t).dropWhile (fun c => !pyIsSpace c) = [] :=
      dropWhile_eq_nil_of_all _ _ (fun c hc => by simp [h c hc])
    rw [hall]
    simp

theorem pySlice_middle_four (x y : List Nat) (hx : x.length = 4) (hy : y.length = 4) :
    pySlice (x ++ y) 4 8 = y := by
  unfold pySlice pyIndex
  rw [if_neg (by omega), if_neg (by omega)]
  have hl : (x ++ y).length = 8 := by simp [hx, hy]
  rw [hl]
  norm_num
  show List.take 4 (List.drop 4 (x ++ y)) = y
  rw [show (4 : Nat) = x.length from hx.symm, List.drop_left, hx, ← hy, List.take_length]

theorem pySlice_suffix_eq (x y : List Nat) (hx : x.length = 8) :
    pySlice (x ++ y) 8 (8 + (y.length : Int)) = y := by
  unfold pySlice pyIndex
  rw [if_neg (by omega), if_neg (by omega)]
  have hl : (x ++ y).length = 8 + y.length := by simp [hx]
  rw [hl]
  have ht : ((8 : Int) + (y.length : Int)).toNat = 8 + y.length := by omega
  rw [ht]
  have h8 : min (8 : Int).toNat (8 + y.length) = 8 := by omega
  have h9 : min (8 + y.length) (8 + y.length) = 8 + y.length := by omega
  rw [h8, h9]
  dsimp only
  rw [show (8 : Nat) = x.length from hx.symm, List.drop_left]
  have : x.length + y.length - x.length = y.length := by omega
  rw [this, List.take_length]

/-- Claim C9 (confirmed): for every complete ERROR frame whose payload body
contains no ASCII whitespace (and whose size fits an int32), the codec's
`get()` raises the `ValueError` from `code, msg = error.split(maxsplit=1)`
instead of returning an `NSQErrorSchema`; an error schema is only produced
when the split finds a whitespace separator between code and message. -/
theorem c9_error_frame_needs_whitespace (body : List Nat)
    (hnw : ∀ c ∈ body, pyIsSpace c = false)
    (hlen : (body.length : Int) + 4 < 2 ^ 31) :
    (Reader.get ⟨mkFrame 1 body, false, 0⟩).1 = .exc .splitValueError := by
  have hassoc : mkFrame 1 body =
      packInt32BE (4 + (body.length : Int)) ++ (packInt32BE 1 ++ body) := by
    simp [mkFrame, List.append_assoc]
  have hblen : (mkFrame 1 body).length = 8 + body.length := by
    simp [mkFrame, length_packInt32BE]
    omega
  have h1 : pySlice (mkFrame 1 body) 0 4 = packInt32BE (4 + (body.length : Int)) := by
    rw [hassoc, pySlice_append _ _ 0 4 (le_refl 0) (by norm_num)
      (by simp [length_packInt32BE]) (by simp [length_packInt32BE])]
    exact pySlice_of_length_four _ (length_packInt32BE _)
  have h2 : pySlice (mkFrame 1 body) 4 8 = packInt32BE 1 := by
    rw [show mkFrame 1 body =
        (packInt32BE (4 + (body.length : Int)) ++ packInt32BE 1) ++ body from by
      simp [mkFrame, List.append_assoc]]
    rw [pySlice_append _ _ 4 8 (by norm_num) (by norm_num)
      (by simp [length_packInt32BE]) (by simp [length_packInt32BE])]
    exact pySlice_middle_four _ _ (length_packInt32BE _) (length_packInt32BE _)
  have hv1 : int32BEv (pySlice (mkFrame 1 body) 0 4) = 4 + (body.length : Int) := by
    rw [h1]
    exact int32BEv_packInt32BE _ (by omega) (by omega)
  have h3 : Reader.unpackResponse (mkFrame 1 body) (4 + (body.length : Int)) = body := by
    unfold Reader.unpackResponse
    rw [show (4 : Int) + (4 + (body.length : Int)) = 8 + (body.length : Int) from by ring]
    rw [show mkFrame 1 body =
        (packInt32BE (4 + (body.length : Int)) ++ packInt32BE 1) ++ body from by
      simp [mkFrame, List.append_assoc]]
    exact pySlice_suffix_eq _ _ (by simp [length_packInt32BE])
  have hft : unpackInt32BE (pySlice (mkFrame 1 body) 4 8) = some 1 := by
    rw [h2]
    unfold unpackInt32BE
    rw [if_pos (length_packInt32BE 1), int32BEv_packInt32BE 1 (by norm_num) (by norm_num)]
  have herr : Reader.unpackError (mkFrame 1 body) (4 + (body.length : Int)) =
      .error .splitValueError := by
    unfold Reader.unpackError
    rw [h3]
    have hs := pySplitWs1_no_ws_short body hnw
    cases hsp : pySplitWs1 body with
    | nil => rfl
    | cons x xs =>
      cases xs with
      | nil => rfl
      | cons y ys =>
        cases ys with
        | nil => exact absurd hsp (hs x y)
        | cons z zs => rfl
  have hpp : Reader.parsePayload (mkFrame 1 body) 1 (4 + (body.length : Int)) =
      .error .splitValueError := by
    unfold Reader.parsePayload
    rw [if_neg (by norm_num), if_pos rfl, herr]
  have hpa : Reader.parseAttempt (mkFrame 1 body) (4 + (body.length : Int)) =
      (.exc .splitValueError, mkFrame 1 body) := by
    unfold Reader.parseAttempt
    rw [if_pos (by rw [hblen]; push_cast; omega), hft]
    dsimp only
    rw [if_pos (by norm_num), hpp]
  rw [get_isHeader_false (mkFrame 1 body) 0,
    if_pos (by rw [hblen]; push_cast; omega), hv1, hpa]

/-- Witness for C9: the body `E_INVALID` (no whitespace) makes `get()` raise
the split `ValueError`. -/
theorem c9_error_frame_needs_whitespace_witness :
    (∀ c ∈ ([69, 95, 73, 78, 86, 65, 76, 73, 68] : List Nat), pyIsSpace c = false) ∧
    ((([69, 95, 73, 78, 86, 65, 76, 73, 68] : List Nat).length : Int) + 4 < 2 ^ 31) ∧
    (Reader.get ⟨mkFrame 1 [69, 95, 73, 78, 86, 65, 76, 73, 68], false, 0⟩).1 =
      .exc .splitValueError :=
  ⟨by decide, by decide,
   c9_error_frame_needs_whitespace [69, 95, 73, 78, 86, 65, 76, 73, 68]
     (by decide) (by decide)⟩
